import Mathlib

/-!
Verification development for the goliveview/controller repository.

The Go source is shallowly embedded: Go maps become association lists with
replace-or-append insertion, `json.Marshal`/`json.Unmarshal` become an
explicit encode/decode pair over a small value universe (strings, integers,
booleans, plus an unserializable value standing for channels/functions, on
which `json.Marshal` errors), and each stateful method becomes a pure
function from the old state to the new state plus its observable outputs.
Go map iteration order is unspecified; the embedding fixes one order by
using lists, which is sound for the per-key properties proved here.
-/

namespace GoLiveView

/-- Universe of Go values stored in an `M` map (`map[string]interface{}`).
`vchan` stands for a value `encoding/json` cannot serialize (a channel or
function), on which `json.Marshal` returns an error. -/
inductive GoValue where
  | vstr (s : String)
  | vnum (n : Int)
  | vbool (b : Bool)
  | vchan
deriving DecidableEq, Repr

/-- Serialized JSON bytes, abstracted to the shape of the encoded scalar. -/
inductive JSONBytes where
  | jstr (s : String)
  | jnum (n : Int)
  | jbool (b : Bool)
deriving DecidableEq, Repr

/-- Destination shape handed to `Get`/`Decode` (the type of the pointer the
caller passes for `json.Unmarshal` to fill). -/
inductive Shape where
  | sstr
  | snum
  | sbool
deriving DecidableEq, Repr

/-- Embedding of `json.Marshal` on a single stored value: scalars serialize,
channels/functions fail. -/
def marshal : GoValue → Option JSONBytes
  | .vstr s => some (.jstr s)
  | .vnum n => some (.jnum n)
  | .vbool b => some (.jbool b)
  | .vchan => none

/-- Embedding of `json.Unmarshal` into a caller-provided shape: a shape
mismatch is a decode error (`none`). -/
def unmarshal : JSONBytes → Shape → Option GoValue
  | .jstr s, .sstr => some (.vstr s)
  | .jnum n, .snum => some (.vnum n)
  | .jbool b, .sbool => some (.vbool b)
  | _, _ => none

/-- The shape that matches a value's own serialization. -/
def shapeOf : GoValue → Shape
  | .vstr _ => .sstr
  | .vnum _ => .snum
  | .vbool _ => .sbool
  | .vchan => .sstr

/-- Errors surfaced by the store: `json.Marshal` failure inside `Put`,
"key not found" from `Get`, and `json.Unmarshal` failure inside `Get`. -/
inductive StoreErr where
  | marshalErr
  | keyNotFound
  | decodeErr
deriving DecidableEq, Repr

/-- Contents of `inmemStore.data : map[string][]byte`, as an association
list with unique keys (the Go map), insertion modeled below. -/
abbrev StoreData := List (String × JSONBytes)

/-- The entry map `m M` passed to `Put`, in one fixed iteration order. -/
abbrev Entries := List (String × GoValue)

/-- Go map write `s.data[k] = b`: replace the binding if the key is present,
otherwise add it. -/
def putKey : StoreData → String → JSONBytes → StoreData
  | [], k, b => [(k, b)]
  | (k', b') :: rest, k, b =>
    if k' = k then (k, b) :: rest else (k', b') :: putKey rest k b

/-- Go map read `s.data[key]`. -/
def alookup : StoreData → String → Option JSONBytes
  | [], _ => none
  | (k', b) :: rest, k => if k' = k then some b else alookup rest k

/-- Embedding of `inmemStore.Put` (src/unnamed/part_000 lines 101-112): for
each entry, `json.Marshal` the value; on failure return the error at once,
keeping the writes already made in this call; on success write the bytes and
continue. Returns the final store contents and the returned error. -/
def inmemPut : StoreData → Entries → StoreData × Option StoreErr
  | s, [] => (s, none)
  | s, (k, v) :: rest =>
    match marshal v with
    | none => (s, some .marshalErr)
    | some b => inmemPut (putKey s k b) rest

/-- Embedding of `inmemStore.Get` (src/unnamed/part_000 lines 114-126):
"key not found" if the key is absent, otherwise `json.Unmarshal` the stored
bytes into the caller's shape. -/
def inmemGet (s : StoreData) (k : String) (sh : Shape) : Except StoreErr GoValue :=
  match alookup s k with
  | none => .error .keyNotFound
  | some b =>
    match unmarshal b sh with
    | none => .error .decodeErr
    | some v => .ok v

/-- `inmemStore.Get` with the store threaded through, making explicit that a
`Get` (which only takes the read lock and reads `s.data`) leaves the store's
contents unchanged. -/
def inmemGetSt (s : StoreData) (k : String) (sh : Shape) :
    (Except StoreErr GoValue) × StoreData :=
  (inmemGet s k sh, s)

/-- The store contents after a sequence of `Put` calls (each call keeps its
successfully written entries even if it returns an error). -/
def applyPuts (s : StoreData) : List Entries → StoreData
  | [] => s
  | p :: rest => applyPuts (inmemPut s p).1 rest

/-- The value the last binding of `k` in one `Put`'s entry list supplies
(in a Go map each key occurs once; with a list order, the last binding is
the one the write loop leaves in place). -/
def lastValueIn : Entries → String → Option GoValue
  | [], _ => none
  | (k', v) :: rest, k =>
    match lastValueIn rest k with
    | some w => some w
    | none => if k' = k then some v else none

/-- The value supplied for `k` by the most recent `Put` of the sequence
whose entries mention `k`. -/
def lastValue : List Entries → String → Option GoValue
  | [], _ => none
  | p :: rest, k =>
    match lastValue rest k with
    | some w => some w
    | none => lastValueIn p k

/-! ## UserRegistry: `userSessions.getOrCreate` (src/controller.go lines 151-164)

Go stores are pointers (`map[int]Store` holds `*inmemStore`); identity of a
store instance is modeled by a heap of allocated stores addressed by a
reference number, with `nextRef` the allocator. -/

/-- State of `userSessions` plus the heap of allocated `inmemStore`s.
`stores` maps a user key to the reference of its store; `heap` maps each
allocated reference to that store's contents. -/
structure Sessions where
  stores : List (Int × Nat)
  heap : List (Nat × StoreData)
  nextRef : Nat
deriving DecidableEq, Repr

/-- Go map read `u.stores[key]`. -/
def lookupUser : List (Int × Nat) → Int → Option Nat
  | [], _ => none
  | (k', r) :: rest, k => if k' = k then some r else lookupUser rest k

/-- Embedding of `userSessions.getOrCreate`: under the registry's exclusive
lock, return the existing store for the key if present; otherwise allocate a
new empty `inmemStore`, register it, and return it. The returned `Nat` is
the identity (reference) of the store handed back to the caller. -/
def getOrCreate (u : Sessions) (key : Int) : Sessions × Nat :=
  match lookupUser u.stores key with
  | some r => (u, r)
  | none =>
    ({ stores := u.stores ++ [(key, u.nextRef)],
       heap := u.heap ++ [(u.nextRef, [])],
       nextRef := u.nextRef + 1 }, u.nextRef)

/-- A sequence of `getOrCreate` calls (the registry's mutex serializes
concurrent calls into such a sequence); returns the final state and the
(key, returned store reference) of every call in order. -/
def runCalls : Sessions → List Int → Sessions × List (Int × Nat)
  | u, [] => (u, [])
  | u, k :: rest =>
    let p := getOrCreate u k
    let q := runCalls p.1 rest
    (q.1, (k, p.2) :: q.2)

/-- The `userSessions` state a fresh `websocketController` starts from:
`stores: make(map[int]Store)`. -/
def initialSessions : Sessions := { stores := [], heap := [], nextRef := 0 }

/-- Number of registered bindings for user `k` (each binding is one store
created for `k`). -/
def countBindings (l : List (Int × Nat)) (k : Int) : Nat :=
  (l.filter (fun e => e.1 = k)).length

/-! ## TopicRegistry: `addConnection`, `removeConnection`, `message`
(src/controller.go lines 176-256) and the point-to-point write loop
`dom.writePreparedMessage` (src/dom.go lines 119-134). -/

/-- A live `*websocket.Conn`: `ref` is the handle's identity, `writeFails`
says whether `WritePreparedMessage` on this handle returns an error. -/
structure Conn where
  ref : Nat
  writeFails : Bool
deriving DecidableEq, Repr

/-- The connection set of one topic: `map[string]*websocket.Conn`. -/
abbrev ConnMap := List (String × Conn)

/-- `wc.topicConnections : map[string]map[string]*websocket.Conn`. -/
abbrev TopicMap := List (String × ConnMap)

/-- Go map read `wc.topicConnections[topic]`. -/
def lookupTopic : TopicMap → String → Option ConnMap
  | [], _ => none
  | (t, cs) :: rest, topic => if t = topic then some cs else lookupTopic rest topic

/-- Go map write `wc.topicConnections[topic] = cs`. -/
def setTopic : TopicMap → String → ConnMap → TopicMap
  | [], topic, cs => [(topic, cs)]
  | (t, cs') :: rest, topic, cs =>
    if t = topic then (topic, cs) :: rest else (t, cs') :: setTopic rest topic cs

/-- Go map delete `delete(wc.topicConnections, topic)`. -/
def delTopic : TopicMap → String → TopicMap
  | [], _ => []
  | (t, cs) :: rest, topic =>
    if t = topic then rest else (t, cs) :: delTopic rest topic

/-- Go map write `connMap[connID] = sess`. -/
def putConn : ConnMap → String → Conn → ConnMap
  | [], connID, c => [(connID, c)]
  | (k, c') :: rest, connID, c =>
    if k = connID then (connID, c) :: rest else (k, c') :: putConn rest connID c

/-- Go map read `connMap[connID]`. -/
def lookupConn : ConnMap → String → Option Conn
  | [], _ => none
  | (k, c) :: rest, connID => if k = connID then some c else lookupConn rest connID

/-- Go map delete `delete(connMap, connID)`. -/
def delConn : ConnMap → String → ConnMap
  | [], _ => []
  | (k, c) :: rest, connID =>
    if k = connID then rest else (k, c) :: delConn rest connID

/-- Embedding of `websocketController.addConnection`: create the topic's
connection map if the topic is new, then register the connection under its
id (overwriting a reused id). -/
def addConnection (tm : TopicMap) (topic connID : String) (c : Conn) : TopicMap :=
  match lookupTopic tm topic with
  | none => setTopic tm topic (putConn [] connID c)
  | some cs => setTopic tm topic (putConn cs connID c)

/-- Embedding of `websocketController.removeConnection`: no-op if the topic
is absent; otherwise delete the connection from the topic's map (closing its
handle) and, if the map became empty, delete the topic entry itself.
Returns the new topic map and the reference of the closed handle, if any. -/
def removeConnection (tm : TopicMap) (topic connID : String) :
    TopicMap × Option Nat :=
  match lookupTopic tm topic with
  | none => (tm, none)
  | some cs =>
    match lookupConn cs connID with
    | some c =>
      if (delConn cs connID).isEmpty then (delTopic tm topic, some c.ref)
      else (setTopic tm topic (delConn cs connID), some c.ref)
    | none =>
      if cs.isEmpty then (delTopic tm topic, none)
      else (tm, none)

/-- The write loop of `websocketController.message`: write the prepared
message to every connection of the topic in iteration order; a failing write
closes that connection and `continue`s with the rest. Returns the deliveries
`(conn ref, message)` made and the refs of the handles closed. -/
def broadcastLoop (msg : String) : ConnMap → List (Nat × String) × List Nat
  | [] => ([], [])
  | (_, c) :: rest =>
    let p := broadcastLoop msg rest
    if c.writeFails then (p.1, c.ref :: p.2) else ((c.ref, msg) :: p.1, p.2)

/-- Embedding of `websocketController.message` (src/controller.go lines
233-256): under the registry lock, prepare the message once (preparation of
a text message succeeds), look up the topic (absent topic: logged warning,
nothing sent), and run the write loop. The function returns no error to its
caller (its Go signature has no return value); it never modifies
`topicConnections`, so the first component is the unchanged topic map. -/
def message (tm : TopicMap) (topic : String) (msg : String) :
    TopicMap × List (Nat × String) × List Nat :=
  match lookupTopic tm topic with
  | none => (tm, [], [])
  | some cs => (tm, broadcastLoop msg cs)

/-- Embedding of `dom.writePreparedMessage` (src/dom.go lines 119-134): the
same write-to-every-connection loop, except that the first failing write
closes that connection and then returns, aborting delivery to the
connections not yet written. -/
def writePreparedMessage (msg : String) : ConnMap → List (Nat × String) × List Nat
  | [] => ([], [])
  | (_, c) :: rest =>
    if c.writeFails then ([], [c.ref])
    else
      let p := writePreparedMessage msg rest
      ((c.ref, msg) :: p.1, p.2)

/-- One `TopicRegistry` operation, for stating the registry invariant. -/
inductive TopicOp where
  | add (topic connID : String) (c : Conn)
  | remove (topic connID : String)
deriving DecidableEq, Repr

/-- Apply a sequence of add/remove operations to a topic map. -/
def applyTopicOps : TopicMap → List TopicOp → TopicMap
  | tm, [] => tm
  | tm, .add topic connID c :: rest => applyTopicOps (addConnection tm topic connID c) rest
  | tm, .remove topic connID :: rest => applyTopicOps (removeConnection tm topic connID).1 rest

/-- The invariant of claim C5: every registered topic has a non-empty
connection set. -/
def NonEmptyTopics (tm : TopicMap) : Prop :=
  ∀ p ∈ tm, p.2 ≠ ([] : ConnMap)

/-! ## Dataset key transform (src/dom.go lines 54-70 and 149-164). -/

/-- The loop body of `kebabToCamelCase`: `isToUpper` is the state machine's
flag; a run after a `-` is uppercased, a `-` is dropped and arms the flag,
every other rune is copied. -/
def kebabLoop : Bool → List Char → List Char
  | _, [] => []
  | true, c :: rest => c.toUpper :: kebabLoop false rest
  | false, c :: rest =>
    if c = '-' then kebabLoop true rest else c :: kebabLoop false rest

/-- Embedding of `kebabToCamelCase` (src/dom.go lines 149-164). -/
def kebabToCamelCase (kebab : String) : String :=
  String.mk (kebabLoop false kebab.data)

/-- The per-key transform of `dom.SetDataset` (src/dom.go lines 54-70):
strip an optional leading "data-" (`strings.HasPrefix` /
`strings.TrimPrefix`), then kebab-to-camel. -/
def setDatasetKey (k : String) : String :=
  kebabToCamelCase
    (match k.data with
     | 'd' :: 'a' :: 't' :: 'a' :: '-' :: rest => String.mk rest
     | _ => k)

/-! ## DOM-patch emission and store persistence (src/dom.go lines 228-392,
second revision, with all seven state-persisting operations; `setStore` at
lines 382-392). `M` maps are Go maps passed by reference: an operation that
hands the caller's own map to `setStore` has the temporary keys deleted from
the caller's map in place, while an operation that builds a fresh map leaves
the caller's data untouched. Each embedded operation returns the contents
the caller's own map holds after the call. -/

/-- An `M` map (`map[string]interface{}`). -/
abbrev MMap := List (String × GoValue)

/-- Go map delete `delete(data, t)`. -/
def delKey : MMap → String → MMap
  | [], _ => []
  | (k, v) :: rest, t => if k = t then rest else (k, v) :: delKey rest t

/-- The stripping loop of `dom.setStore`: `for _, t := range d.temporaryKeys
{ delete(data, t) }`. -/
def stripTemp (temporaryKeys : List String) (data : MMap) : MMap :=
  temporaryKeys.foldl delKey data

/-- Embedding of `dom.setStore` (src/dom.go lines 382-392): delete the
temporary keys from the map it is handed (in place), then `store.Put` it
(a `Put` error is only logged). Returns the stripped map (the contents the
handed-in map now has) and the new store contents. -/
def setStore (temporaryKeys : List String) (st : StoreData) (data : MMap) :
    MMap × StoreData :=
  let data' := stripTemp temporaryKeys data
  (data', (inmemPut st data').1)

/-- Result of one DOM-patch emission: the operation kind sent, the contents
of the caller-supplied map after the call, the entries handed to `Put`, and
the store contents after the call. -/
structure EmitResult where
  opKind : String
  callerMap : MMap
  persisted : MMap
  store : StoreData
deriving DecidableEq, Repr

/-- Embedding of `dom.SetDataset` (second revision): builds the dataset
operation from `data` (with `setDatasetKey` applied to each key), broadcasts
it, then `setStore(data)` — `data` is the caller's own map. -/
def domSetDataset (temporaryKeys : List String) (st : StoreData) (data : MMap) :
    EmitResult :=
  let p := setStore temporaryKeys st data
  { opKind := "dataset", callerMap := p.1, persisted := p.1, store := p.2 }

/-- Embedding of `dom.SetAttributes`: broadcasts the operation with `data`
as value, then `setStore(data)` on the caller's own map. -/
def domSetAttributes (temporaryKeys : List String) (st : StoreData) (data : MMap) :
    EmitResult :=
  let p := setStore temporaryKeys st data
  { opKind := "setAttributes", callerMap := p.1, persisted := p.1, store := p.2 }

/-- Embedding of `dom.ToggleClassList`: broadcasts the class list, then
copies the caller's `boolData` into a fresh `data` map and calls
`setStore(data)` on the copy — the caller's map is not handed to
`setStore`, so its contents after the call are `boolData` unchanged. -/
def domToggleClassList (temporaryKeys : List String) (st : StoreData)
    (boolData : List (String × Bool)) : EmitResult :=
  let data : MMap := boolData.map (fun e => (e.1, GoValue.vbool e.2))
  let p := setStore temporaryKeys st data
  { opKind := "classlist",
    callerMap := boolData.map (fun e => (e.1, GoValue.vbool e.2)),
    persisted := p.1, store := p.2 }

/-- Embedding of `dom.AddClass`: broadcasts the class name, then builds the
fresh map `{class: true}` and calls `setStore` on it (no caller map). -/
def domAddClass (temporaryKeys : List String) (st : StoreData) (class' : String) :
    EmitResult :=
  let p := setStore temporaryKeys st [(class', GoValue.vbool true)]
  { opKind := "addClass", callerMap := [], persisted := p.1, store := p.2 }

/-- Embedding of `dom.RemoveClass`: like `AddClass` with `{class: false}`. -/
def domRemoveClass (temporaryKeys : List String) (st : StoreData) (class' : String) :
    EmitResult :=
  let p := setStore temporaryKeys st [(class', GoValue.vbool false)]
  { opKind := "removeClass", callerMap := [], persisted := p.1, store := p.2 }

/-- Embedding of `dom.SetValue`: broadcasts the value, then builds the fresh
map `{strings.TrimPrefix(selector, "#"): value}` and calls `setStore`. -/
def domSetValue (temporaryKeys : List String) (st : StoreData)
    (selector : String) (value : GoValue) : EmitResult :=
  let key := if String.isPrefixOf "#" selector then selector.drop 1 else selector
  let p := setStore temporaryKeys st [(key, value)]
  { opKind := "setValue", callerMap := [], persisted := p.1, store := p.2 }

/-- Embedding of `dom.Morph`: executes the template against `data`
(`render` is the collaborator's result); on a render error the operation is
dropped and `setStore` is not reached (caller's map and store untouched);
on success the morph patch is broadcast and `setStore(data)` runs on the
caller's own map. The Bool records whether a patch was emitted. -/
def domMorph (temporaryKeys : List String) (st : StoreData)
    (render : Option String) (data : MMap) : EmitResult × Bool :=
  match render with
  | none => ({ opKind := "morph", callerMap := data, persisted := [], store := st }, false)
  | some _ =>
    let p := setStore temporaryKeys st data
    ({ opKind := "morph", callerMap := p.1, persisted := p.1, store := p.2 }, true)

/-! ## Go errors, `UserError` (src/view.go lines 408-416) and the
per-connection read loop of `onEvent` (src/view.go lines 210-289). -/

/-- A Go `error` value: either a plain error or one produced by wrapping an
inner error (`fmt.Errorf("...: %w", inner)`). -/
inductive GoError where
  | simple (msg : String)
  | wrap (msg : String) (inner : GoError)
deriving DecidableEq, Repr

/-- `errors.Unwrap`: `nil` for a plain error, the inner error otherwise. -/
def unwrapErr : GoError → Option GoError
  | .simple _ => none
  | .wrap _ inner => some inner

/-- The `Error()` method: the error's own message. -/
def errMessage : GoError → String
  | .simple m => m
  | .wrap m _ => m

/-- `DefaultUserErrorMessage` (src/view.go line 408). -/
def DefaultUserErrorMessage : String := "internal error"

/-- Embedding of `UserError` (src/view.go lines 410-416): the unwrapped
inner error's message when the error wraps one, else the default. -/
def UserError (err : GoError) : String :=
  match unwrapErr err with
  | some inner => errMessage inner
  | none => DefaultUserErrorMessage

/-- An inbound wire event as decoded in the read loop (`Event`, src/session.go):
only the fields the loop inspects are modeled. -/
structure Event where
  id : String
  selector : String
  template : String
deriving DecidableEq, Repr

/-- One result of `c.ReadMessage()` plus the JSON decode of its payload:
`readErr` is a transport error (including normal close); `received none` is
a message whose JSON fails to decode as an `Event`; `received (some e)` is a
decoded event. -/
inductive ReadResult where
  | readErr
  | received (e : Option Event)
deriving DecidableEq, Repr

/-- A glv-error DOM patch pushed by the loop: `none` for `unsetError` (the
indicator cleared with nil data), `some m` for `setError` carrying the
user-facing message `m`. -/
abbrev ErrPatch := Option String

/-- Observable outcome of running the read loop over a list of read
results: the events dispatched to the view's `OnEvent` handler in order, the
glv-error patches pushed, and whether the connection is still open and
subscribed afterwards (the loop only ends, unsubscribing and closing the
connection, on a read error). -/
structure LoopOut where
  handled : List Event
  patches : List ErrPatch
  connOpen : Bool
deriving DecidableEq, Repr

/-- Embedding of the read loop of `onEvent` (src/view.go lines 237-289):
a read error breaks the loop (the connection is then removed and closed);
a decode failure or an event with empty `id` is logged and dropped
(`continue`); otherwise the loop clears the error indicator (`unsetError`),
dispatches the event to the handler, and, if the handler returns an error,
pushes the error-display patch carrying `UserError` of it (`setError`) —
then keeps looping either way. An exhausted input list means no further
message has arrived yet: the connection is still open and subscribed. -/
def runLoop (handler : Event → Option GoError) : List ReadResult → LoopOut
  | [] => { handled := [], patches := [], connOpen := true }
  | .readErr :: _ => { handled := [], patches := [], connOpen := false }
  | .received none :: rest => runLoop handler rest
  | .received (some e) :: rest =>
    if e.id = "" then runLoop handler rest
    else
      let tail := runLoop handler rest
      match handler e with
      | none =>
        { handled := e :: tail.handled, patches := none :: tail.patches,
          connOpen := tail.connOpen }
      | some ge =>
        { handled := e :: tail.handled,
          patches := none :: some (UserError ge) :: tail.patches,
          connOpen := tail.connOpen }

/-- Whether the read loop drops an inbound message without dispatching it:
a JSON decode failure or an empty event id. -/
def isDropped : ReadResult → Bool
  | .received none => true
  | .received (some e) => e.id == ""
  | .readErr => false

/-! ## Shared lemmas about the store embedding. -/

theorem alookup_putKey (s : StoreData) (k q : String) (b : JSONBytes) :
    alookup (putKey s k b) q = if k = q then some b else alookup s q := by
  induction s with
  | nil => by_cases h : k = q <;> simp [putKey, alookup, h]
  | cons hd tl ih =>
    obtain ⟨k', b'⟩ := hd
    simp only [putKey]
    by_cases h : k' = k
    · subst h
      simp only [if_pos rfl, alookup]
      by_cases hq : k' = q <;> simp [hq]
    · simp only [if_neg h, alookup]
      by_cases hq : k' = q
      · subst hq
        rw [if_pos rfl, if_neg (fun hkq => h hkq.symm), if_pos rfl]
      · simp [hq, ih]

theorem alookup_inmemPut (p : Entries) (s : StoreData) (k : String)
    (h : ∀ e ∈ p, (marshal e.2).isSome) :
    alookup (inmemPut s p).1 k =
      match lastValueIn p k with
      | some v => marshal v
      | none => alookup s k := by
  induction p generalizing s with
  | nil => simp [inmemPut, lastValueIn]
  | cons hd tl ih =>
    obtain ⟨k₀, v₀⟩ := hd
    have hv₀ : (marshal v₀).isSome := h (k₀, v₀) (by simp)
    obtain ⟨b₀, hb₀⟩ := Option.isSome_iff_exists.mp hv₀
    have htl : ∀ e ∈ tl, (marshal e.2).isSome := fun e he => h e (by simp [he])
    simp only [inmemPut, hb₀, lastValueIn]
    rw [ih _ htl]
    cases hlast : lastValueIn tl k with
    | some w => simp
    | none =>
      simp only [alookup_putKey]
      by_cases hk : k₀ = k <;> simp [hk, hb₀]

theorem alookup_inmemPut_not_mem (p : Entries) (s : StoreData) (q : String)
    (h : ∀ e ∈ p, e.1 ≠ q) :
    alookup (inmemPut s p).1 q = alookup s q := by
  induction p generalizing s with
  | nil => simp [inmemPut]
  | cons hd tl ih =>
    obtain ⟨k₀, v₀⟩ := hd
    have hk₀ : k₀ ≠ q := h (k₀, v₀) (by simp)
    have htl : ∀ e ∈ tl, e.1 ≠ q := fun e he => h e (by simp [he])
    cases hm : marshal v₀ with
    | none => simp [inmemPut, hm]
    | some b₀ =>
      simp only [inmemPut, hm]
      rw [ih _ htl, alookup_putKey]
      simp [hk₀]

theorem alookup_applyPuts (ps : List Entries) (s : StoreData) (k : String)
    (h : ∀ p ∈ ps, ∀ e ∈ p, (marshal e.2).isSome) :
    alookup (applyPuts s ps) k =
      match lastValue ps k with
      | some v => marshal v
      | none => alookup s k := by
  induction ps generalizing s with
  | nil => simp [applyPuts, lastValue]
  | cons p rest ih =>
    have hp : ∀ e ∈ p, (marshal e.2).isSome := h p (by simp)
    have hrest : ∀ q ∈ rest, ∀ e ∈ q, (marshal e.2).isSome := fun q hq => h q (by simp [hq])
    simp only [applyPuts, lastValue]
    rw [ih _ hrest]
    cases hlast : lastValue rest k with
    | some w => simp
    | none => rw [alookup_inmemPut p s k hp]

theorem alookup_applyPuts_not_mem (ps : List Entries) (s : StoreData) (q : String)
    (h : ∀ p ∈ ps, ∀ e ∈ p, e.1 ≠ q) :
    alookup (applyPuts s ps) q = alookup s q := by
  induction ps generalizing s with
  | nil => simp [applyPuts]
  | cons p rest ih =>
    have hp : ∀ e ∈ p, e.1 ≠ q := h p (by simp)
    have hrest : ∀ p' ∈ rest, ∀ e ∈ p', e.1 ≠ q := fun p' hp' => h p' (by simp [hp'])
    simp only [applyPuts]
    rw [ih _ hrest, alookup_inmemPut_not_mem p s q hp]

theorem unmarshal_marshal (v : GoValue) (b : JSONBytes) (h : marshal v = some b) :
    unmarshal b (shapeOf v) = some v := by
  cases v <;> cases b <;> simp_all [marshal, unmarshal, shapeOf]

theorem lastValueIn_mem (p : Entries) (k : String) (v : GoValue)
    (h : lastValueIn p k = some v) : ∃ e ∈ p, e.2 = v := by
  induction p with
  | nil => simp [lastValueIn] at h
  | cons hd tl ih =>
    simp only [lastValueIn] at h
    cases ht : lastValueIn tl k with
    | some w =>
      rw [ht] at h
      simp only [Option.some_inj] at h
      obtain ⟨e, he, hev⟩ := ih (by rw [ht, h])
      exact ⟨e, by simp [he], hev⟩
    | none =>
      rw [ht] at h
      by_cases hk : hd.1 = k
      · rw [if_pos hk] at h
        exact ⟨hd, by simp, Option.some_inj.mp h⟩
      · simp [hk] at h

theorem lastValue_mem (ps : List Entries) (k : String) (v : GoValue)
    (h : lastValue ps k = some v) : ∃ p ∈ ps, ∃ e ∈ p, e.2 = v := by
  induction ps with
  | nil => simp [lastValue] at h
  | cons p rest ih =>
    simp only [lastValue] at h
    cases hr : lastValue rest k with
    | some w =>
      rw [hr] at h
      simp only [Option.some_inj] at h
      obtain ⟨p', hp', he⟩ := ih (by rw [hr, h])
      exact ⟨p', by simp [hp'], he⟩
    | none =>
      rw [hr] at h
      obtain ⟨e, he, hev⟩ := lastValueIn_mem p k v h
      exact ⟨p, by simp, e, he, hev⟩

/-! ## Claim theorems. -/

/-- C2: for every finite sequence of `Put` calls on one store (all of whose
entries serialize), a `Get` of any key `k` mentioned by some `Put` in the
sequence decodes, at the matching shape, to the value supplied by the most
recent `Put` whose entries contained `k`; keys mentioned by no `Put` of the
sequence keep whatever binding they had before. -/
theorem put_get_last_write_wins (ps : List Entries) (s₀ : StoreData) (k : String)
    (v : GoValue)
    (hok : ∀ p ∈ ps, ∀ e ∈ p, (marshal e.2).isSome)
    (hlast : lastValue ps k = some v) :
    inmemGet (applyPuts s₀ ps) k (shapeOf v) = .ok v ∧
    (∀ q : String, (∀ p ∈ ps, ∀ e ∈ p, e.1 ≠ q) →
      alookup (applyPuts s₀ ps) q = alookup s₀ q) := by
  constructor
  · have hb : (marshal v).isSome := by
      obtain ⟨p, hp, e, he, hev⟩ := lastValue_mem ps k v hlast
      have := hok p hp e he
      rwa [hev] at this
    obtain ⟨b, hb'⟩ := Option.isSome_iff_exists.mp hb
    have hget := alookup_applyPuts ps s₀ k hok
    rw [hlast] at hget
    simp only [inmemGet, hget, hb', unmarshal_marshal v b hb']
  · intro q hq
    exact alookup_applyPuts_not_mem ps s₀ q hq

/-- C2 witness: two `Put` calls, the second overwriting "count"; `Get`
returns the second value, and a never-mentioned key is unaffected. -/
theorem put_get_last_write_wins_witness :
    inmemGet (applyPuts []
        [[("count", GoValue.vnum 1)],
         [("count", GoValue.vnum 2), ("name", GoValue.vstr "a")]])
      "count" (shapeOf (GoValue.vnum 2)) = .ok (GoValue.vnum 2) :=
  (put_get_last_write_wins
    [[("count", GoValue.vnum 1)],
     [("count", GoValue.vnum 2), ("name", GoValue.vstr "a")]]
    [] "count" (GoValue.vnum 2) (by decide) (by decide)).1

/-- C4: a `Put` whose entry list contains an unserializable value after a
block of serializable ones returns an error, and the store afterwards is
exactly the prior contents updated with the entries processed before the
failing one — the earlier writes of this call are kept, the failing entry
and the ones after it are not written. -/
theorem put_partial_write (s : StoreData) (pre post : Entries) (kb : String)
    (bad : GoValue)
    (hpre : ∀ e ∈ pre, (marshal e.2).isSome)
    (hbad : marshal bad = none) :
    inmemPut s (pre ++ (kb, bad) :: post) = ((inmemPut s pre).1, some .marshalErr) := by
  induction pre generalizing s with
  | nil => simp [inmemPut, hbad]
  | cons hd tl ih =>
    obtain ⟨k₀, v₀⟩ := hd
    obtain ⟨b₀, hb₀⟩ := Option.isSome_iff_exists.mp (hpre (k₀, v₀) (by simp))
    simp only [List.cons_append, inmemPut, hb₀]
    exact ih (putKey s k₀ b₀) (fun e he => hpre e (by simp [he]))

/-- C4 witness: a put of a good entry followed by a channel value returns
the error and keeps only the first entry. -/
theorem put_partial_write_witness :
    inmemPut [] [("a", GoValue.vnum 1), ("bad", GoValue.vchan), ("c", GoValue.vnum 3)]
      = ((inmemPut [] [("a", GoValue.vnum 1)]).1, some .marshalErr) :=
  put_partial_write [] [("a", GoValue.vnum 1)] [("c", GoValue.vnum 3)] "bad"
    GoValue.vchan (by decide) (by decide)

/-- C7: a `Get` of a key never written by any `Put` of the store instance
(starting from the empty store a fresh `inmemStore` holds) fails with the
"key not found" error and leaves the store's contents unchanged. -/
theorem get_unwritten_key (ps : List Entries) (k : String) (sh : Shape)
    (h : ∀ p ∈ ps, ∀ e ∈ p, e.1 ≠ k) :
    inmemGetSt (applyPuts [] ps) k sh = (.error .keyNotFound, applyPuts [] ps) := by
  have := alookup_applyPuts_not_mem ps [] k h
  simp only [alookup] at this
  simp [inmemGetSt, inmemGet, this]

/-- C7 witness: "missing" was never put, so `Get` fails with key-not-found
even though other keys were written. -/
theorem get_unwritten_key_witness :
    inmemGetSt (applyPuts [] [[("count", GoValue.vnum 1)]]) "missing" .snum
      = (.error .keyNotFound, applyPuts [] [[("count", GoValue.vnum 1)]]) :=
  get_unwritten_key [[("count", GoValue.vnum 1)]] "missing" .snum (by decide)

/-- C6: the dataset key transform of `SetDataset` (strip an optional
leading "data-", then camel-case) maps "data-foo-bar" to "fooBar", and
`kebabToCamelCase` maps "foo-bar-baz" to "fooBarBaz", "x-y-z" to "xYZ", and
"foo-" to "foo" (a trailing hyphen produces no extra character). -/
theorem dataset_key_transform :
    setDatasetKey "data-foo-bar" = "fooBar" ∧
    setDatasetKey "foo-bar-baz" = "fooBarBaz" ∧
    kebabToCamelCase "foo-bar-baz" = "fooBarBaz" ∧
    setDatasetKey "x-y-z" = "xYZ" ∧
    kebabToCamelCase "x-y-z" = "xYZ" ∧
    setDatasetKey "foo-" = "foo" ∧
    kebabToCamelCase "foo-" = "foo" := by
  refine ⟨?_, ?_, ?_, ?_, ?_, ?_, ?_⟩ <;> decide

theorem lookupUser_append_of_some (l : List (Int × Nat)) (e : Int × Nat) (k : Int)
    (r : Nat) (h : lookupUser l k = some r) : lookupUser (l ++ [e]) k = some r := by
  induction l with
  | nil => simp [lookupUser] at h
  | cons hd tl ih =>
    simp only [lookupUser, List.cons_append] at h ⊢
    by_cases hk : hd.1 = k
    · simpa [hk] using h
    · rw [if_neg hk] at h ⊢
      exact ih h

theorem getOrCreate_persist (u : Sessions) (k' k : Int) (r : Nat)
    (h : lookupUser u.stores k = some r) :
    lookupUser (getOrCreate u k').1.stores k = some r := by
  unfold getOrCreate
  cases hl : lookupUser u.stores k' with
  | some r' => simpa using h
  | none => simpa using lookupUser_append_of_some u.stores (k', u.nextRef) k r h

theorem runCalls_persist (u : Sessions) (ks : List Int) (k : Int) (r : Nat)
    (h : lookupUser u.stores k = some r) :
    lookupUser (runCalls u ks).1.stores k = some r := by
  induction ks generalizing u with
  | nil => simpa [runCalls] using h
  | cons k₀ rest ih =>
    simp only [runCalls]
    exact ih (getOrCreate u k₀).1 (getOrCreate_persist u k₀ k r h)

theorem lookupUser_append_self (l : List (Int × Nat)) (k : Int) (r : Nat)
    (h : lookupUser l k = none) : lookupUser (l ++ [(k, r)]) k = some r := by
  induction l with
  | nil => simp [lookupUser]
  | cons hd tl ih =>
    simp only [lookupUser, List.cons_append] at h ⊢
    by_cases hk : hd.1 = k
    · simp [hk] at h
    · rw [if_neg hk] at h ⊢
      exact ih h

theorem getOrCreate_binds (u : Sessions) (k : Int) :
    lookupUser (getOrCreate u k).1.stores k = some (getOrCreate u k).2 := by
  unfold getOrCreate
  cases hl : lookupUser u.stores k with
  | some r => simpa using hl
  | none => simpa using lookupUser_append_self u.stores k u.nextRef hl

theorem runCalls_mem_binds (u : Sessions) (ks : List Int) (k : Int) (r : Nat)
    (h : (k, r) ∈ (runCalls u ks).2) :
    lookupUser (runCalls u ks).1.stores k = some r := by
  induction ks generalizing u with
  | nil => simp [runCalls] at h
  | cons k₀ rest ih =>
    simp only [runCalls] at h ⊢
    rcases List.mem_cons.mp h with heq | hmem
    · have hk : k₀ = k := congrArg Prod.fst heq.symm
      have hr : (getOrCreate u k₀).2 = r := congrArg Prod.snd heq.symm
      subst hk
      have := getOrCreate_binds u k₀
      rw [hr] at this
      exact runCalls_persist (getOrCreate u k₀).1 rest k₀ r this
    · exact ih (getOrCreate u k₀).1 hmem

theorem countBindings_zero_of_lookup_none (l : List (Int × Nat)) (k : Int)
    (h : lookupUser l k = none) : countBindings l k = 0 := by
  induction l with
  | nil => simp [countBindings]
  | cons hd tl ih =>
    simp only [lookupUser] at h
    by_cases hk : hd.1 = k
    · simp [hk] at h
    · rw [if_neg hk] at h
      simpa [countBindings, hk] using ih h

theorem countBindings_pos_of_lookup_some (l : List (Int × Nat)) (k : Int) (r : Nat)
    (h : lookupUser l k = some r) : 1 ≤ countBindings l k := by
  induction l with
  | nil => simp [lookupUser] at h
  | cons hd tl ih =>
    simp only [lookupUser] at h
    by_cases hk : hd.1 = k
    · simp [countBindings, hk]
    · rw [if_neg hk] at h
      simpa [countBindings, hk] using ih h

theorem getOrCreate_count_le (u : Sessions) (k' k : Int)
    (h : countBindings u.stores k ≤ 1) :
    countBindings (getOrCreate u k').1.stores k ≤ 1 := by
  unfold getOrCreate
  cases hl : lookupUser u.stores k' with
  | some r => simpa using h
  | none =>
    by_cases hk : k' = k
    · subst hk
      have h0 := countBindings_zero_of_lookup_none u.stores k' hl
      simp only [countBindings] at h0 ⊢
      simp [List.filter_append, h0]
    · simp only [countBindings] at h ⊢
      simpa [List.filter_append, hk] using h

theorem runCalls_count_le (u : Sessions) (ks : List Int) (k : Int)
    (h : countBindings u.stores k ≤ 1) :
    countBindings (runCalls u ks).1.stores k ≤ 1 := by
  induction ks generalizing u with
  | nil => simpa [runCalls] using h
  | cons k₀ rest ih =>
    simp only [runCalls]
    exact ih (getOrCreate u k₀).1 (getOrCreate_count_le u k₀ k h)

theorem runCalls_heap_empty (u : Sessions) (ks : List Int)
    (h : ∀ e ∈ u.heap, e.2 = ([] : StoreData)) :
    ∀ e ∈ (runCalls u ks).1.heap, e.2 = ([] : StoreData) := by
  induction ks generalizing u with
  | nil => simpa [runCalls] using h
  | cons k₀ rest ih =>
    simp only [runCalls]
    refine ih (getOrCreate u k₀).1 ?_
    unfold getOrCreate
    cases hl : lookupUser u.stores k₀ with
    | some r => simpa using h
    | none =>
      intro e he
      simp only [List.mem_append, List.mem_singleton] at he
      rcases he with he | he
      · exact h e he
      · rw [he]

/-- C3: starting from the fresh registry, any serialized sequence of
`getOrCreate` calls (the registry mutex serializes concurrent callers)
returns the identical store reference for every call with the same user id;
the id ends up bound to exactly one store (exactly one creation), every
store in the heap is the empty store it was created as, and a further
`getOrCreate` for the id returns the same reference without changing the
registry at all. -/
theorem getOrCreate_identical (ks : List Int) (k : Int) (r₁ r₂ : Nat)
    (h₁ : (k, r₁) ∈ (runCalls initialSessions ks).2)
    (h₂ : (k, r₂) ∈ (runCalls initialSessions ks).2) :
    r₁ = r₂ ∧
    countBindings (runCalls initialSessions ks).1.stores k = 1 ∧
    (∀ e ∈ (runCalls initialSessions ks).1.heap, e.2 = ([] : StoreData)) ∧
    getOrCreate (runCalls initialSessions ks).1 k
      = ((runCalls initialSessions ks).1, r₁) := by
  have hb₁ := runCalls_mem_binds initialSessions ks k r₁ h₁
  have hb₂ := runCalls_mem_binds initialSessions ks k r₂ h₂
  refine ⟨?_, ?_, ?_, ?_⟩
  · have := hb₁.symm.trans hb₂
    exact Option.some_inj.mp this
  · have hle : countBindings (runCalls initialSessions ks).1.stores k ≤ 1 :=
      runCalls_count_le initialSessions ks k (by simp [initialSessions, countBindings])
    have hge := countBindings_pos_of_lookup_some _ k r₁ hb₁
    omega
  · exact runCalls_heap_empty initialSessions ks (by simp [initialSessions])
  · unfold getOrCreate
    rw [hb₁]

/-- C3 witness: three calls, two for user 7 around one for user 9; both
calls for 7 return the same reference. -/
theorem getOrCreate_identical_witness :
    (7, 0) ∈ (runCalls initialSessions [7, 9, 7]).2 ∧
    ((0 : Nat) = 0 ∧
     countBindings (runCalls initialSessions [7, 9, 7]).1.stores 7 = 1 ∧
     (∀ e ∈ (runCalls initialSessions [7, 9, 7]).1.heap, e.2 = ([] : StoreData)) ∧
     getOrCreate (runCalls initialSessions [7, 9, 7]).1 7
       = ((runCalls initialSessions [7, 9, 7]).1, 0)) :=
  ⟨by decide,
   getOrCreate_identical [7, 9, 7] 7 0 0 (by decide) (by decide)⟩

theorem putConn_ne_nil (cs : ConnMap) (connID : String) (c : Conn) :
    putConn cs connID c ≠ ([] : ConnMap) := by
  cases cs with
  | nil => simp [putConn]
  | cons hd tl =>
    obtain ⟨k, c'⟩ := hd
    simp only [putConn]
    split <;> simp

theorem mem_setTopic (tm : TopicMap) (t : String) (cs : ConnMap) (p : String × ConnMap)
    (h : p ∈ setTopic tm t cs) : p = (t, cs) ∨ p ∈ tm := by
  induction tm with
  | nil => simpa [setTopic] using h
  | cons hd tl ih =>
    obtain ⟨t', cs'⟩ := hd
    simp only [setTopic] at h
    by_cases ht : t' = t
    · rw [if_pos ht] at h
      rcases List.mem_cons.mp h with h | h
      · exact Or.inl h
      · exact Or.inr (by simp [h])
    · rw [if_neg ht] at h
      rcases List.mem_cons.mp h with h | h
      · exact Or.inr (by simp [h])
      · rcases ih h with h | h
        · exact Or.inl h
        · exact Or.inr (by simp [h])

theorem mem_delTopic (tm : TopicMap) (t : String) (p : String × ConnMap)
    (h : p ∈ delTopic tm t) : p ∈ tm := by
  induction tm with
  | nil => simp [delTopic] at h
  | cons hd tl ih =>
    obtain ⟨t', cs'⟩ := hd
    simp only [delTopic] at h
    by_cases ht : t' = t
    · rw [if_pos ht] at h
      exact by simp [h]
    · rw [if_neg ht] at h
      rcases List.mem_cons.mp h with h | h
      · simp [h]
      · exact by simp [ih h]

theorem addConnection_nonEmpty (tm : TopicMap) (topic connID : String) (c : Conn)
    (h : NonEmptyTopics tm) : NonEmptyTopics (addConnection tm topic connID c) := by
  intro p hp
  unfold addConnection at hp
  cases hl : lookupTopic tm topic with
  | none =>
    rw [hl] at hp
    rcases mem_setTopic tm topic _ p hp with heq | hmem
    · rw [heq]
      exact putConn_ne_nil [] connID c
    · exact h p hmem
  | some cs =>
    rw [hl] at hp
    rcases mem_setTopic tm topic _ p hp with heq | hmem
    · rw [heq]
      exact putConn_ne_nil cs connID c
    · exact h p hmem

theorem removeConnection_nonEmpty (tm : TopicMap) (topic connID : String)
    (h : NonEmptyTopics tm) : NonEmptyTopics (removeConnection tm topic connID).1 := by
  intro p hp
  unfold removeConnection at hp
  split at hp
  · exact h p hp
  · rename_i cs hl
    split at hp
    · rename_i c hc
      split at hp
      · exact h p (mem_delTopic tm topic p hp)
      · rename_i he
        rcases mem_setTopic tm topic _ p hp with heq | hmem
        · rw [heq]
          simpa [List.isEmpty_iff] using he
        · exact h p hmem
    · split at hp
      · exact h p (mem_delTopic tm topic p hp)
      · exact h p hp

/-- C5: starting from the empty registry, after any sequence of
`addConnection` and `removeConnection` operations every topic present in
the topic map has a non-empty connection set: `removeConnection` deletes a
topic whose set became empty and `addConnection` never creates an empty
set. -/
theorem topics_never_empty (ops : List TopicOp) :
    NonEmptyTopics (applyTopicOps [] ops) := by
  have main : ∀ (ops : List TopicOp) (tm : TopicMap), NonEmptyTopics tm →
      NonEmptyTopics (applyTopicOps tm ops) := by
    intro ops
    induction ops with
    | nil => intro tm h; simpa [applyTopicOps] using h
    | cons op rest ih =>
      intro tm h
      cases op with
      | add topic connID c =>
        exact ih _ (addConnection_nonEmpty tm topic connID c h)
      | remove topic connID =>
        exact ih _ (removeConnection_nonEmpty tm topic connID h)
  exact main ops [] (by intro p hp; simp at hp)

theorem broadcastLoop_closed (msg : String) (cs : ConnMap) (k : String) (c : Conn)
    (hmem : (k, c) ∈ cs) (hf : c.writeFails = true) :
    c.ref ∈ (broadcastLoop msg cs).2 := by
  induction cs with
  | nil => simp at hmem
  | cons hd tl ih =>
    obtain ⟨k', c'⟩ := hd
    simp only [broadcastLoop]
    rcases List.mem_cons.mp hmem with heq | hmem'
    · have hc : c' = c := congrArg Prod.snd heq.symm
      subst hc
      simp [hf]
    · by_cases hw : c'.writeFails <;> simp [hw, ih hmem']

theorem broadcastLoop_delivered (msg : String) (cs : ConnMap) (k : String) (c : Conn)
    (hmem : (k, c) ∈ cs) (hf : c.writeFails = false) :
    (c.ref, msg) ∈ (broadcastLoop msg cs).1 := by
  induction cs with
  | nil => simp at hmem
  | cons hd tl ih =>
    obtain ⟨k', c'⟩ := hd
    simp only [broadcastLoop]
    rcases List.mem_cons.mp hmem with heq | hmem'
    · have hc : c' = c := congrArg Prod.snd heq.symm
      subst hc
      simp [hf]
    · by_cases hw : c'.writeFails <;> simp [hw, ih hmem']

theorem writePreparedMessage_abort (msg : String) (pre post : ConnMap)
    (k : String) (c : Conn)
    (hpre : ∀ e ∈ pre, e.2.writeFails = false) (hf : c.writeFails = true) :
    writePreparedMessage msg (pre ++ (k, c) :: post)
      = (pre.map (fun e => (e.2.ref, msg)), [c.ref]) := by
  induction pre with
  | nil => simp [writePreparedMessage, hf]
  | cons hd tl ih =>
    obtain ⟨k', c'⟩ := hd
    have hhd : c'.writeFails = false := hpre (k', c') (by simp)
    have ih' := ih (fun e he => hpre e (by simp [he]))
    simp [writePreparedMessage, hhd, ih']

/-- C1 counterexample: topic "t" holds connection "a" (whose write fails)
and connection "b"; after `message`, "a"'s handle has been closed (its ref
is in the closed list) and "b" was written the message, but — contrary to
the claim — "a"'s registration is still present in "t"'s connection set on
the next inspection: `message` leaves `topicConnections` unchanged. -/
theorem broadcast_eviction_counterexample :
    (message [("t", [("a", ⟨1, true⟩), ("b", ⟨2, false⟩)])] "t" "m").1
      = [("t", [("a", ⟨1, true⟩), ("b", ⟨2, false⟩)])] ∧
    lookupConn
      ((lookupTopic
        (message [("t", [("a", ⟨1, true⟩), ("b", ⟨2, false⟩)])] "t" "m").1 "t").getD [])
      "a" = some ⟨1, true⟩ ∧
    (message [("t", [("a", ⟨1, true⟩), ("b", ⟨2, false⟩)])] "t" "m").2.2 = [1] ∧
    (message [("t", [("a", ⟨1, true⟩), ("b", ⟨2, false⟩)])] "t" "m").2.1
      = [(2, "m")] := by
  refine ⟨rfl, rfl, rfl, rfl⟩

/-- C1 amended: when a write fails during `websocketController.message`,
the failing connection's handle is closed and delivery of the same message
to every other (non-failing) connection of the topic still proceeds, and
the broadcast reports no error to its caller (its Go signature returns
nothing); however the broadcast does not evict the failed connection: the
topic map is returned unchanged, the registration remaining until
`removeConnection` runs (when the connection's read loop exits). In the
`dom.writePreparedMessage` variant, the first failing write closes that
connection and aborts delivery to the connections after it. -/
theorem broadcast_write_failure (tm : TopicMap) (topic msg : String) (cs : ConnMap)
    (hcs : lookupTopic tm topic = some cs) :
    (message tm topic msg).1 = tm ∧
    (∀ k c, (k, c) ∈ cs → c.writeFails = true →
      c.ref ∈ (message tm topic msg).2.2) ∧
    (∀ k c, (k, c) ∈ cs → c.writeFails = false →
      (c.ref, msg) ∈ (message tm topic msg).2.1) ∧
    (∀ (pre post : ConnMap) (k : String) (c : Conn),
      cs = pre ++ (k, c) :: post → c.writeFails = true →
      (∀ e ∈ pre, e.2.writeFails = false) →
      writePreparedMessage msg cs
        = (pre.map (fun e => (e.2.ref, msg)), [c.ref])) := by
  refine ⟨?_, ?_, ?_, ?_⟩
  · unfold message
    rw [hcs]
  · intro k c hmem hf
    unfold message
    rw [hcs]
    exact broadcastLoop_closed msg cs k c hmem hf
  · intro k c hmem hf
    unfold message
    rw [hcs]
    exact broadcastLoop_delivered msg cs k c hmem hf
  · intro pre post k c hsplit hf hpre
    rw [hsplit]
    exact writePreparedMessage_abort msg pre post k c hpre hf

/-- C1 witness: the two-connection topic of the counterexample, with the
amended theorem applied to it. -/
theorem broadcast_write_failure_witness :
    (message [("t", [("a", ⟨1, true⟩), ("b", ⟨2, false⟩)])] "t" "m").1
      = [("t", [("a", ⟨1, true⟩), ("b", ⟨2, false⟩)])] ∧
    (1 : Nat) ∈ (message [("t", [("a", ⟨1, true⟩), ("b", ⟨2, false⟩)])] "t" "m").2.2 ∧
    ((2 : Nat), "m") ∈ (message [("t", [("a", ⟨1, true⟩), ("b", ⟨2, false⟩)])] "t" "m").2.1 ∧
    writePreparedMessage "m" [("a", ⟨1, true⟩), ("b", ⟨2, false⟩)] = ([], [1]) := by
  have h := broadcast_write_failure [("t", [("a", ⟨1, true⟩), ("b", ⟨2, false⟩)])]
    "t" "m" [("a", ⟨1, true⟩), ("b", ⟨2, false⟩)] (by decide)
  refine ⟨h.1, ?_, ?_, ?_⟩
  · exact h.2.1 "a" ⟨1, true⟩ (by decide) (by decide)
  · exact h.2.2.1 "b" ⟨2, false⟩ (by decide) (by decide)
  · exact h.2.2.2 [] [("b", ⟨2, false⟩)] "a" ⟨1, true⟩ (by decide) (by decide)
      (by decide)

/-- C8: an inbound message that fails to decode as an `Event`, or decodes
to an event with empty `id`, is dropped by the read loop without invoking
any event handler or changing anything: the loop's outcome on the remaining
messages is identical, so the connection stays open and subscribed and a
subsequent valid event is still processed; in particular a lone bad message
leaves the connection open. -/
theorem bad_event_dropped (handler : Event → Option GoError) (m : ReadResult)
    (rest : List ReadResult) (hbad : isDropped m = true) :
    runLoop handler (m :: rest) = runLoop handler rest ∧
    (runLoop handler [m]).connOpen = true := by
  cases m with
  | readErr => simp [isDropped] at hbad
  | received e =>
    cases e with
    | none => exact ⟨rfl, rfl⟩
    | some ev =>
      simp only [isDropped, beq_iff_eq] at hbad
      constructor
      · simp [runLoop, hbad]
      · simp [runLoop, hbad]

/-- C8 witness: a malformed message followed by a valid event; the bad
message changes nothing and the valid event is still handled. -/
theorem bad_event_dropped_witness :
    runLoop (fun _ => none)
        [.received none, .received (some ⟨"inc", "", ""⟩)]
      = runLoop (fun _ => none) [.received (some ⟨"inc", "", ""⟩)] ∧
    (runLoop (fun _ => none) [ReadResult.received none]).connOpen = true :=
  bad_event_dropped (fun _ => none) (.received none)
    [.received (some ⟨"inc", "", ""⟩)] (by decide)

/-- C9: when the handler of a valid event returns an error `ge`, the read
loop pushes the error-display patch whose user-facing message is the
message of `errors.Unwrap(ge)` when `ge` wraps an inner error and the
default "internal error" otherwise, after the unset-error patch; the event
was dispatched, and the loop then continues exactly as on the remaining
messages (the connection stays open). -/
theorem handler_error_user_message (handler : Event → Option GoError) (e : Event)
    (ge : GoError) (rest : List ReadResult)
    (hid : ¬ e.id = "") (hh : handler e = some ge) :
    runLoop handler (.received (some e) :: rest)
      = { handled := e :: (runLoop handler rest).handled,
          patches := none ::
            some (match unwrapErr ge with
                  | some inner => errMessage inner
                  | none => "internal error") :: (runLoop handler rest).patches,
          connOpen := (runLoop handler rest).connOpen } := by
  simp [runLoop, hid, hh, UserError, DefaultUserErrorMessage]

/-- C9 witness: a handler failing with a wrapped error pushes the inner
error's message; rerun with a plain error it would push "internal error"
(covered by the theorem's match). -/
theorem handler_error_user_message_witness :
    runLoop (fun _ => some (.wrap "outer" (.simple "quota exceeded")))
        [.received (some ⟨"save", "", ""⟩)]
      = { handled := [⟨"save", "", ""⟩],
          patches := [none, some "quota exceeded"],
          connOpen := true } := by
  have h := handler_error_user_message
    (fun _ => some (.wrap "outer" (.simple "quota exceeded")))
    ⟨"save", "", ""⟩ (.wrap "outer" (.simple "quota exceeded")) []
    (by decide) rfl
  simpa [runLoop] using h

/-- C10 counterexample: `ToggleClassList` with a caller map containing the
temporary key "selector" does not delete it from the caller's map — the
caller's map still holds "selector" after the call (the stripping happens
on an internal copy), contradicting the claim that every state-persisting
emission deletes the temporary keys from the caller-supplied map in
place. The persisted entries are nevertheless stripped. -/
theorem temporary_keys_counterexample :
    (domToggleClassList ["selector", "template"] [] [("selector", true)]).callerMap
      = [("selector", GoValue.vbool true)] ∧
    (domToggleClassList ["selector", "template"] [] [("selector", true)]).persisted
      = [] ∧
    (domToggleClassList ["selector", "template"] [] [("selector", true)]).store
      = [] := by
  refine ⟨rfl, rfl, rfl⟩

/-- C10 amended: every state-persisting DOM-patch emission strips the
session's temporary keys from the map it hands to `Put`, and exactly the
remaining entries are persisted; but the in-place deletion from the
caller-supplied map happens only for `SetDataset`, `SetAttributes` and
`Morph` (which pass the caller's own map to `setStore`). `ToggleClassList`
strips an internal copy, leaving the caller's map untouched, and
`AddClass`, `RemoveClass` and `SetValue` build fresh single-entry maps, so
no caller map is involved. -/
theorem temporary_keys_stripped (temporaryKeys : List String) (st : StoreData)
    (data : MMap) (boolData : List (String × Bool)) (class' selector : String)
    (v : GoValue) (r : String) :
    ((domSetDataset temporaryKeys st data).callerMap
        = stripTemp temporaryKeys data ∧
      (domSetDataset temporaryKeys st data).persisted
        = stripTemp temporaryKeys data ∧
      (domSetDataset temporaryKeys st data).store
        = (inmemPut st (stripTemp temporaryKeys data)).1) ∧
    ((domSetAttributes temporaryKeys st data).callerMap
        = stripTemp temporaryKeys data ∧
      (domSetAttributes temporaryKeys st data).persisted
        = stripTemp temporaryKeys data) ∧
    ((domMorph temporaryKeys st (some r) data).1.callerMap
        = stripTemp temporaryKeys data ∧
      (domMorph temporaryKeys st (some r) data).1.persisted
        = stripTemp temporaryKeys data) ∧
    ((domToggleClassList temporaryKeys st boolData).callerMap
        = boolData.map (fun e => (e.1, GoValue.vbool e.2)) ∧
      (domToggleClassList temporaryKeys st boolData).persisted
        = stripTemp temporaryKeys (boolData.map (fun e => (e.1, GoValue.vbool e.2)))) ∧
    (domAddClass temporaryKeys st class').persisted
      = stripTemp temporaryKeys [(class', GoValue.vbool true)] ∧
    (domRemoveClass temporaryKeys st class').persisted
      = stripTemp temporaryKeys [(class', GoValue.vbool false)] ∧
    (domSetValue temporaryKeys st selector v).persisted
      = stripTemp temporaryKeys
          [((if String.isPrefixOf "#" selector then selector.drop 1 else selector), v)] := by
  refine ⟨⟨rfl, rfl, rfl⟩, ⟨rfl, rfl⟩, ⟨rfl, rfl⟩, ⟨rfl, rfl⟩, rfl, rfl, rfl⟩

end GoLiveView
